import Mathlib

/-!
Shallow embedding of the Artemis trading core.

Conventions of the embedding:
* shopspring decimal values (prices, quantities, cash) are modelled as `ℚ`;
  the Go library computes `Div` with bounded decimal precision, which we model
  as exact rational division (no claim below is precision-sensitive);
* `time.Time` values are modelled as rational day counts, so
  `a.After(b) = (b < a)`, `a.Sub(b).Hours()/24 = a - b`;
* Go maps (`map[string]*Position`, `map[string]*TickerQuote`) are modelled as
  association lists looked up on the first matching key; the Go map over
  signals (`map[int]*Signal`) is modelled as a `List Signal` mutated by index,
  with the (unspecified) iteration order made explicit as a list of indices;
* Go slices of pointers (`[]*Trade`) are modelled as `List (Option Trade)` so
  that the nil checks of the source stay visible;
* fallible Go functions returning `error` become `Except String`;
  a nil-pointer dereference in the source (a panic, not an error) is modelled
  as `Option.none` at the outermost layer;
* error message formatting (`fmt.Errorf` with interpolated values) is elided:
  the embedding keeps fixed descriptive strings.
-/

namespace Artemis

/-- Signal status from pkg/signals/types.go (StatusPending, StatusActive, StatusSold). -/
inductive Status where
  | pending
  | active
  | sold
deriving DecidableEq, Repr

/-- One fill record, pkg/signals/types.go `Trade`. Unset Go zero values are `0`. -/
structure Trade where
  buyDateTime : ℚ
  sellDateTime : ℚ
  buyPrice : ℚ
  sellPrice : ℚ
  cost : ℚ
  proceeds : ℚ
  profitLoss : ℚ
  quantity : ℚ
deriving DecidableEq, Repr

/-- A trading signal, pkg/signals/types.go `Signal`. -/
structure Signal where
  id : ℕ
  ticker : String
  buyDateTime : ℚ
  sellDateTime : ℚ
  allocationPercentage : ℚ
  status : Status
  initialTrade : Option Trade
  dipTrades : List (Option Trade)
  highPrice : ℚ
deriving DecidableEq, Repr

/-- Market quote for one ticker and day, pkg/marketdata `TickerQuote` (price and SMA20). -/
structure TickerQuote where
  price : ℚ
  sma20 : ℚ
deriving DecidableEq, Repr

/-- Per-ticker aggregate of the backtest ledger, `Position` in the brokerage package. -/
structure Position where
  shares : ℚ
  avgBuyPrice : ℚ
deriving DecidableEq, Repr

/-- The backtest ledger, `BacktestBrokerage`: cash balance plus a ticker-keyed position map. -/
structure BacktestBrokerage where
  balance : ℚ
  positions : List (String × Position)
deriving DecidableEq, Repr

/-- First-match lookup in the position map (Go map access `b.positions[symbol]`). -/
def findPos : List (String × Position) → String → Option Position
  | [], _ => none
  | (s, p) :: rest, symbol => if s = symbol then some p else findPos rest symbol

/-- Mark-to-model value of one map entry (`position.Shares.Mul(position.AvgBuyPrice)`). -/
def entryValue (e : String × Position) : ℚ :=
  e.2.shares * e.2.avgBuyPrice

/-- `GetAccountValue`: cash balance plus the value of all positions at average buy price. -/
def GetAccountValue (b : BacktestBrokerage) : ℚ :=
  b.balance + (b.positions.map entryValue).sum

/-- `GetPosition`: share count for a symbol, error when the map has no entry. -/
def GetPosition (b : BacktestBrokerage) (symbol : String) : Except String ℚ :=
  match findPos b.positions symbol with
  | none => Except.error "no position found for symbol"
  | some p => Except.ok p.shares

/-- Share count of a symbol, zero when absent; used to state the C7 hypothesis. -/
def posSharesOrZero (b : BacktestBrokerage) (symbol : String) : ℚ :=
  match findPos b.positions symbol with
  | none => 0
  | some p => p.shares

/-- The position-map update of `ExecuteBuyOrder`: fold the new lot into the first entry
for the symbol (recomputing the volume-weighted average buy price), or append a fresh
entry when the symbol is absent. The source computes `totalValue.Div(totalShares)` with
shopspring decimals, which panic on a zero divisor; the case `shares + quantity = 0`
(a zero-quantity lot folded into a zero-share position) is therefore `none`. -/
def updatePos : List (String × Position) → String → ℚ → ℚ → Option (List (String × Position))
  | [], symbol, quantity, price => some [(symbol, ⟨quantity, price⟩)]
  | (s, p) :: rest, symbol, quantity, price =>
    if s = symbol then
      let totalShares := p.shares + quantity
      if totalShares = 0 then none
      else
        let totalValue := p.shares * p.avgBuyPrice + quantity * price
        some ((s, ⟨totalShares, totalValue / totalShares⟩) :: rest)
    else (updatePos rest symbol quantity price).map (fun ps => (s, p) :: ps)

/-- `ExecuteBuyOrder`: reject when cash is short of quantity times price, otherwise
deduct the cost from the balance and fold the lot into the position map; `none` is the
decimal division-by-zero panic inside the average-price recomputation. -/
def ExecuteBuyOrder (b : BacktestBrokerage) (symbol : String) (quantity limitPrice : ℚ) :
    Option (Except String BacktestBrokerage) :=
  let totalCost := quantity * limitPrice
  if b.balance < totalCost then some (Except.error "insufficient funds")
  else (updatePos b.positions symbol quantity limitPrice).map (fun ps =>
    Except.ok
      { balance := b.balance - totalCost
        positions := ps })

/-- The position-map update of `ExecuteSellOrder`: drop the entry when its shares reach
exactly zero, otherwise decrease the share count keeping the average buy price. -/
def sellPos : List (String × Position) → String → ℚ → List (String × Position)
  | [], _, _ => []
  | (s, p) :: rest, symbol, quantity =>
    if s = symbol then
      if p.shares - quantity = 0 then rest
      else (s, ⟨p.shares - quantity, p.avgBuyPrice⟩) :: rest
    else (s, p) :: sellPos rest symbol quantity

/-- `ExecuteSellOrder`: reject when the position is absent or short of shares, otherwise
add the proceeds to the balance and shrink (or delete) the position. -/
def ExecuteSellOrder (b : BacktestBrokerage) (symbol : String) (quantity limitPrice : ℚ) :
    Except String BacktestBrokerage :=
  match findPos b.positions symbol with
  | none => Except.error "no position found for symbol"
  | some pos =>
    if pos.shares < quantity then Except.error "insufficient shares"
    else Except.ok
      { balance := b.balance + quantity * limitPrice
        positions := sellPos b.positions symbol quantity }

/-- First-match lookup in the ticker-data map (Go map access `e.tickerData[ticker]`). -/
def lookupQuote : List (String × TickerQuote) → String → Option TickerQuote
  | [], _ => none
  | (s, q) :: rest, ticker => if s = ticker then some q else lookupQuote rest ticker

/-- Quantity of one dip-trade slot; a nil pointer contributes nothing (the source
guards every read with a nil check). -/
def dipQty : Option Trade → ℚ
  | none => 0
  | some t => t.quantity

/-- Combined quantity sold by `ExecuteSell` for a signal whose InitialTrade is `it`:
the initial quantity plus the quantities of all non-nil dip trades. -/
def totalQuantity (it : Trade) (dipTrades : List (Option Trade)) : ℚ :=
  it.quantity + (dipTrades.map dipQty).sum

/-- Live-signal filter of `CalculateAllocationAmount`: status Pending or Active. -/
def isLive (s : Signal) : Bool :=
  s.status = Status.pending || s.status = Status.active

/-- Sum of the allocation percentages of all live signals (`totalPercentage`). -/
def totalPercentage (signalList : List Signal) : ℚ :=
  ((signalList.filter isLive).map Signal.allocationPercentage).sum

/-- The weight branch of `CalculateAllocationAmount`: when the live percentages sum to
at most 100 the signal keeps its own percentage, otherwise the percentage is
renormalized by the total; the allocation is the resulting percentage of the account
value. -/
def allocByWeight (signalList : List Signal) (accountValue : ℚ) (sig : Signal) : ℚ :=
  let tp := totalPercentage signalList
  if tp ≤ 100 then
    sig.allocationPercentage / 100 * accountValue
  else
    sig.allocationPercentage / tp * 100 / 100 * accountValue

/-- `Engine.CalculateAllocationAmount`: an Active signal with an InitialTrade whose buy
date is strictly before the current date gets the original InitialTrade cost (the
dip-buy override); every other signal gets the weight-based share of the fresh account
value. The Go error path (account value lookup) cannot fail on the backtest ledger, so
the result is total. -/
def CalculateAllocationAmount (signalList : List Signal) (b : BacktestBrokerage)
    (currentDate : ℚ) (sig : Signal) : ℚ :=
  match sig.status, sig.initialTrade with
  | Status.active, some t =>
    if t.buyDateTime < currentDate then t.cost
    else allocByWeight signalList (GetAccountValue b) sig
  | _, _ => allocByWeight signalList (GetAccountValue b) sig

/-- `Engine.ExecuteBuy` for a signal whose day quote is `q` (the caller has already
checked the quote exists): size the order by `CalculateAllocationAmount`, buy
allocation ÷ price shares, and on success mark the signal Active with a fresh
InitialTrade; `none` propagates a ledger panic. -/
def ExecuteBuy (signalList : List Signal) (b : BacktestBrokerage) (currentDate : ℚ)
    (sig : Signal) (q : TickerQuote) : Option (Except String (Signal × BacktestBrokerage)) :=
  let tickerPrice := q.price
  let allocationAmount := CalculateAllocationAmount signalList b currentDate sig
  let quantity := allocationAmount / tickerPrice
  match ExecuteBuyOrder b sig.ticker quantity tickerPrice with
  | none => none
  | some (Except.error e) => some (Except.error e)
  | some (Except.ok b2) => some (Except.ok
      ({ sig with
          status := Status.active
          initialTrade := some
            { buyDateTime := currentDate, sellDateTime := 0
              buyPrice := tickerPrice, sellPrice := 0
              cost := allocationAmount, proceeds := 0, profitLoss := 0
              quantity := quantity } }, b2))

/-- `Engine.ExecuteDipBuy`: size the supplemental order by `CalculateAllocationAmount`
(which returns the InitialTrade cost in the dip scenario), buy, and on success append
the new lot to DipTrades; `none` propagates a ledger panic. -/
def ExecuteDipBuy (signalList : List Signal) (b : BacktestBrokerage) (currentDate : ℚ)
    (sig : Signal) (q : TickerQuote) : Option (Except String (Signal × BacktestBrokerage)) :=
  let tickerPrice := q.price
  let allocationAmount := CalculateAllocationAmount signalList b currentDate sig
  let quantity := allocationAmount / tickerPrice
  match ExecuteBuyOrder b sig.ticker quantity tickerPrice with
  | none => none
  | some (Except.error e) => some (Except.error e)
  | some (Except.ok b2) => some (Except.ok
      ({ sig with
          dipTrades := sig.dipTrades ++ [some
            { buyDateTime := currentDate, sellDateTime := 0
              buyPrice := tickerPrice, sellPrice := 0
              cost := allocationAmount, proceeds := 0, profitLoss := 0
              quantity := quantity }] }, b2))

/-- Close one trade record at sell time: the proceeds are the own quantity of the trade
times the sell price, and the profit/loss is those proceeds minus the own cost. -/
def closeTrade (currentDate tickerPrice : ℚ) (t : Trade) : Trade :=
  { t with
      sellDateTime := currentDate
      sellPrice := tickerPrice
      proceeds := t.quantity * tickerPrice
      profitLoss := t.quantity * tickerPrice - t.cost }

/-- `Engine.ExecuteSell` for a signal whose day quote is `q`. The source dereferences
`signal.InitialTrade` without a nil check when summing quantities, so a signal without
an InitialTrade panics: that case is `none`. Otherwise: error when the combined
quantity is zero, when the ledger has no position, or when the ledger holds fewer
shares than recorded; on the happy path sell the combined quantity in one order, close
the InitialTrade and every non-nil DipTrade with its own proceeds, and mark the signal
Sold. -/
def ExecuteSell (b : BacktestBrokerage) (currentDate : ℚ) (sig : Signal)
    (q : TickerQuote) : Option (Except String (Signal × BacktestBrokerage)) :=
  match sig.initialTrade with
  | none => none
  | some it => some (
    let tickerPrice := q.price
    let total := totalQuantity it sig.dipTrades
    if total = 0 then Except.error "no shares to sell for signal"
    else
      match GetPosition b sig.ticker with
      | Except.error _ => Except.error "position not found in account"
      | Except.ok accountPosition =>
        if accountPosition < total then Except.error "insufficient shares in account"
        else
          match ExecuteSellOrder b sig.ticker total tickerPrice with
          | Except.error e => Except.error e
          | Except.ok b2 => Except.ok
              ({ sig with
                  initialTrade := some (closeTrade currentDate tickerPrice it)
                  dipTrades := sig.dipTrades.map (Option.map (closeTrade currentDate tickerPrice))
                  status := Status.sold }, b2))

/-- Latest buy date among the InitialTrade and the non-nil DipTrades, the condition-4
scan of `CheckDipBuyConditions`. -/
def latestBuyDate (dipTrades : List (Option Trade)) (d0 : ℚ) : ℚ :=
  dipTrades.foldl
    (fun acc ot =>
      match ot with
      | some t => if acc < t.buyDateTime then t.buyDateTime else acc
      | none => acc) d0

/-- `Engine.CheckDipBuyConditions`: the six-condition dip predicate, with the checks in
source order. A missing quote returns false. Conditions 1 and 2 read only the quote
and the recorded high; condition 3 dereferences `signal.InitialTrade` without a nil
check, so a signal that reaches it without an InitialTrade panics (`none`). -/
def CheckDipBuyConditions (tickerData : List (String × TickerQuote)) (currentDate : ℚ)
    (sig : Signal) : Option Bool :=
  match lookupQuote tickerData sig.ticker with
  | none => some false
  | some q =>
    let currentPrice := q.price
    let sma20 := q.sma20
    let high20 := sig.highPrice
    if sma20 ≤ currentPrice then some false
    else
      let dropPercentage := (high20 - currentPrice) / high20 * 100
      if dropPercentage < 10 then some false
      else
        match sig.initialTrade with
        | none => none
        | some it =>
          if sma20 < it.buyPrice then some false
          else
            let daysSinceLastBuy := currentDate - latestBuyDate sig.dipTrades it.buyDateTime
            if daysSinceLastBuy < 5 then some false
            else if it.buyPrice ≤ currentPrice then some false
            else if 2 ≤ sig.dipTrades.length then some false
            else some true

/-- The per-signal update of `UpdateSignalsHighPrice`: when a quote exists and the day
price exceeds the recorded high, raise the high; the status of the signal is never
consulted. -/
def updateHighPrice (tickerData : List (String × TickerQuote)) (sig : Signal) : Signal :=
  match lookupQuote tickerData sig.ticker with
  | none => sig
  | some q => if sig.highPrice < q.price then { sig with highPrice := q.price } else sig

/-- `Engine.UpdateSignalsHighPrice`: apply the high-price update to every signal. -/
def UpdateSignalsHighPrice (tickerData : List (String × TickerQuote))
    (signalList : List Signal) : List Signal :=
  signalList.map (updateHighPrice tickerData)

/-- Engine state of package engine: the signal set, the day quotes, the backtest
ledger and the current date. -/
structure Engine where
  signals : List Signal
  tickerData : List (String × TickerQuote)
  brokerage : BacktestBrokerage
  currentDate : ℚ
deriving DecidableEq, Repr

/-- One iteration of the `Engine.Run` loop at signal index `i`: a due Pending signal
with a quote is bought, a due Active signal with a quote is sold, an Active signal
before its sell date is dip-bought when the predicate fires; per-signal errors leave
the state unchanged and the loop continues. `none` models a panic of the source. -/
def runStep (tickerData : List (String × TickerQuote)) (currentDate : ℚ)
    (st : List Signal × BacktestBrokerage) (i : ℕ) :
    Option (List Signal × BacktestBrokerage) :=
  match st.1[i]? with
  | none => some st
  | some sig =>
    if sig.status = Status.pending ∧ sig.buyDateTime ≤ currentDate then
      match lookupQuote tickerData sig.ticker with
      | none => some st
      | some q =>
        match ExecuteBuy st.1 st.2 currentDate sig q with
        | none => none
        | some (Except.error _) => some st
        | some (Except.ok (sig2, b2)) => some (st.1.set i sig2, b2)
    else if sig.status = Status.active then
      if sig.sellDateTime ≤ currentDate then
        match lookupQuote tickerData sig.ticker with
        | none => some st
        | some q =>
          match ExecuteSell st.2 currentDate sig q with
          | none => none
          | some (Except.error _) => some st
          | some (Except.ok (sig2, b2)) => some (st.1.set i sig2, b2)
      else
        match CheckDipBuyConditions tickerData currentDate sig with
        | none => none
        | some false => some st
        | some true =>
          match lookupQuote tickerData sig.ticker with
          | none => none
          | some q =>
            match ExecuteDipBuy st.1 st.2 currentDate sig q with
            | none => none
            | some (Except.error _) => some st
            | some (Except.ok (sig2, b2)) => some (st.1.set i sig2, b2)
    else some st

/-- The `Engine.Run` loop over an explicit index order (Go map iteration order is
unspecified; every theorem below holds for every order). -/
def runLoop (tickerData : List (String × TickerQuote)) (currentDate : ℚ) :
    List ℕ → List Signal × BacktestBrokerage → Option (List Signal × BacktestBrokerage)
  | [], st => some st
  | i :: rest, st =>
    match runStep tickerData currentDate st i with
    | none => none
    | some st2 => runLoop tickerData currentDate rest st2

/-- `Engine.Run`: process every signal once, then update every high price. -/
def Run (e : Engine) : Option Engine :=
  match runLoop e.tickerData e.currentDate (List.range e.signals.length)
      (e.signals, e.brokerage) with
  | none => none
  | some (sigs, b) => some
      { e with signals := UpdateSignalsHighPrice e.tickerData sigs, brokerage := b }

/-! Backtesting exit simulators, backtesting/internal/enhanced_backtest.go.
Go float64 arithmetic is modelled as exact `ℚ` arithmetic; no claim below depends on a
comparison within floating-point rounding distance. -/

/-- Loop body of `simulateSimpleTrailingStop` over the remaining prices, carrying the
trailing-stop level, the highest price so far, and the running max gain / max drawdown
percentages. The stop check precedes the new-high update, exactly as in the source;
leaving the loop without a break is impossible from a non-empty list, so the nil case
returns the untouched initial values. -/
def simpleLoop (entry pct : ℚ) :
    List ℚ → ℚ → ℚ → ℚ → ℚ → ℚ × String × ℚ × ℚ
  | [], _, _, maxGain, maxDrawdown => (entry, "", maxGain, maxDrawdown)
  | price :: rest, stopLevel, highest, maxGain, maxDrawdown =>
    let g := (price - entry) / entry * 100
    let mg := if maxGain < g then g else maxGain
    let md := if g < maxDrawdown then g else maxDrawdown
    if price ≤ stopLevel then (price, "Trailing stop hit", mg, md)
    else
      let highest2 := if highest < price then price else highest
      let stop2 := if highest < price then price * (1 - pct) else stopLevel
      match rest with
      | [] => (price, "Held until sell date", mg, md)
      | _ :: _ => simpleLoop entry pct rest stop2 highest2 mg md

/-- `simulateSimpleTrailingStop`: exit price, exit reason, max gain percent and max
drawdown percent for the plain trailing-stop replay. -/
def simulateSimpleTrailingStop (initialPrice : ℚ) (dailyPrices : List ℚ)
    (trailingStopPct : ℚ) : ℚ × String × ℚ × ℚ :=
  match dailyPrices with
  | [] => (initialPrice, "No data", 0, 0)
  | _ :: _ =>
    simpleLoop initialPrice trailingStopPct dailyPrices
      (initialPrice * (1 - trailingStopPct)) initialPrice 0 0

/-- Loop body of `simulateTrailingStop` (take profit + trailing stop), carrying in
addition the take-profit flag and the pending exit reason. Here the new-high update
precedes the stop check, exactly as in the source. -/
def tpLoop (entry takeProfitTarget pct : ℚ) :
    List ℚ → ℚ → ℚ → Bool → String → ℚ → ℚ → ℚ × String × ℚ × ℚ
  | [], _, _, _, exitStrategy, maxGain, maxDrawdown => (entry, exitStrategy, maxGain, maxDrawdown)
  | price :: rest, stopLevel, highest, takeProfitHit, exitStrategy, maxGain, maxDrawdown =>
    let g := (price - entry) / entry * 100
    let mg := if maxGain < g then g else maxGain
    let md := if g < maxDrawdown then g else maxDrawdown
    let hit2 := if takeProfitTarget ≤ price then true else takeProfitHit
    let exit2 :=
      if takeProfitTarget ≤ price then "Take profit triggered, trailing stop active"
      else exitStrategy
    let highest2 := if highest < price then price else highest
    let stop2 := if highest < price then price * (1 - pct) else stopLevel
    if price ≤ stop2 then
      (price,
        if hit2 then "Trailing stop hit (after take profit)"
        else "Trailing stop hit (before take profit)", mg, md)
    else
      match rest with
      | [] => (price, if exit2 = "" then "Held until sell date" else exit2, mg, md)
      | _ :: _ => tpLoop entry takeProfitTarget pct rest stop2 highest2 hit2 exit2 mg md

/-- `simulateTrailingStop`: the take-profit + trailing-stop replay. -/
def simulateTrailingStop (initialPrice : ℚ) (dailyPrices : List ℚ)
    (takeProfitPct trailingStopPct : ℚ) : ℚ × String × ℚ × ℚ :=
  match dailyPrices with
  | [] => (initialPrice, "No data", 0, 0)
  | _ :: _ =>
    tpLoop initialPrice (initialPrice * (1 + takeProfitPct)) trailingStopPct dailyPrices
      (initialPrice * (1 - trailingStopPct)) initialPrice false "" 0 0

/-- Index of the day on which the simple trailing-stop replay exits, given the current
stop level and highest price: the first day whose price is at or below the stop level
carried into that day (the stop is checked before the new-high update, as in the
source), or the last day when no stop fires. -/
def simpleStopExitIdx (pct : ℚ) : List ℚ → ℚ → ℚ → ℕ
  | [], _, _ => 0
  | price :: rest, stopLevel, highest =>
    if price ≤ stopLevel then 0
    else
      match rest with
      | [] => 0
      | _ :: _ =>
        simpleStopExitIdx pct rest
          (if highest < price then price * (1 - pct) else stopLevel)
          (if highest < price then price else highest) + 1

/-- Index of the day on which the take-profit + trailing-stop replay exits: the first
day whose price is at or below the stop level after that day's new-high update (as in
the source), or the last day when no stop fires. -/
def tpStopExitIdx (pct : ℚ) : List ℚ → ℚ → ℚ → ℕ
  | [], _, _ => 0
  | price :: rest, stopLevel, highest =>
    if price ≤ (if highest < price then price * (1 - pct) else stopLevel) then 0
    else
      match rest with
      | [] => 0
      | _ :: _ =>
        tpStopExitIdx pct rest
          (if highest < price then price * (1 - pct) else stopLevel)
          (if highest < price then price else highest) + 1

/-- Strategy 2 of `detectDip`: with at least three days of data, fire when day 2 is
below the two-day moving average of days 0 and 1 and below the initial price. -/
def maCrossover (initialPrice : ℚ) : List ℚ → Option ℚ
  | p0 :: p1 :: p2 :: _ =>
    if p2 < (p0 + p1) / 2 ∧ p2 < initialPrice then some p2 else none
  | _ => none

/-- Strategy 3 of `detectDip`: scan adjacent days for a single-day drop of more than
3 percent and return the later day price. -/
def findDailyDrop : List ℚ → Option ℚ
  | p0 :: p1 :: rest =>
    if (p1 - p0) / p0 < -(3 / 100) then some p1 else findDailyDrop (p1 :: rest)
  | _ => none

/-- Strategy 5 of `detectDip`: with at least two days of data, fire when day 1 is below
day 0 and below the initial price. -/
def momentumReversal (initialPrice : ℚ) : List ℚ → Option ℚ
  | p0 :: p1 :: _ => if p1 < p0 ∧ p1 < initialPrice then some p1 else none
  | _ => none

/-- `detectDip`: the five-strategy waterfall plus the lowest-price fallback, in source
order; the stagger percentage parameter is carried but never read, as in the source. -/
def detectDip (initialPrice : ℚ) (dailyPrices : List ℚ) (_staggerPercent : ℚ) :
    ℚ × String :=
  match dailyPrices with
  | [] => (initialPrice, "no dip detected (no data)")
  | p0 :: rest =>
    let dp := p0 :: rest
    match dp.find? (fun p => decide (p ≤ initialPrice * (95 / 100))) with
    | some p => (p, "RSI oversold (5% drop)")
    | none =>
      match maCrossover initialPrice dp with
      | some p => (p, "MA crossover")
      | none =>
        match findDailyDrop dp with
        | some p => (p, "volatility spike (3% drop)")
        | none =>
          match dp.find? (fun p => decide (p ≤ initialPrice * (98 / 100))) with
          | some p => (p, "support break (2% drop)")
          | none =>
            match momentumReversal initialPrice dp with
            | some p => (p, "momentum reversal")
            | none =>
              let lowestPrice := rest.foldl (fun m p => if p < m then p else m) p0
              if lowestPrice < initialPrice * (99 / 100) then
                (lowestPrice, "lowest price (1%+ drop)")
              else (initialPrice, "no dip detected")

/-- The blended entry price of `runStaggeredEntryStrategy`: the initial price weighted
by the stagger percentage plus the detected dip price weighted by the rest. -/
def weightedBuyPrice (initialPrice : ℚ) (dailyPrices : List ℚ) (staggerPercent : ℚ) : ℚ :=
  let dipBuyPrice := (detectDip initialPrice dailyPrices staggerPercent).1
  initialPrice * staggerPercent + dipBuyPrice * (1 - staggerPercent)

/-- Gain of a day relative to the entry price, in percent (spec-side reference). -/
def gainPct (entry p : ℚ) : ℚ :=
  (p - entry) / entry * 100

/-- Maximum of zero and all daily gain percentages of a series (spec-side reference
for the reported max gain). -/
def gainMax (entry : ℚ) (l : List ℚ) : ℚ :=
  l.foldl (fun m p => max m (gainPct entry p)) 0

/-- Minimum of zero and all daily gain percentages of a series (spec-side reference
for the reported max drawdown). -/
def ddMin (entry : ℚ) (l : List ℚ) : ℚ :=
  l.foldl (fun m p => min m (gainPct entry p)) 0

/-- Cost of one dip-trade slot; a nil pointer contributes nothing. -/
def dipCost : Option Trade → ℚ
  | none => 0
  | some t => t.cost

/-- Recorded profit/loss of one dip-trade slot; a nil pointer contributes nothing. -/
def dipPL : Option Trade → ℚ
  | none => 0
  | some t => t.profitLoss

/-- Combined cost of the InitialTrade and all non-nil dip trades. -/
def totalCost (it : Trade) (dipTrades : List (Option Trade)) : ℚ :=
  it.cost + (dipTrades.map dipCost).sum

/-- Realized profit/loss of a signal whose InitialTrade is `it`: the per-trade sum of
the recorded profit/loss fields. -/
def signalRealizedPL (it : Trade) (dipTrades : List (Option Trade)) : ℚ :=
  it.profitLoss + (dipTrades.map dipPL).sum

/-- Mark-to-model value of the position held for one symbol, zero when absent. -/
def positionValue (b : BacktestBrokerage) (symbol : String) : ℚ :=
  match findPos b.positions symbol with
  | none => 0
  | some p => p.shares * p.avgBuyPrice

/-- Spec-side rendering of the five dip strategies as a prioritized list, resolved
first-match-wins by `List.findSome?`. -/
def dipStrategySpec (init : ℚ) (dp : List ℚ) : Option (ℚ × String) :=
  [ (dp.find? fun p => p ≤ init * (95 / 100)).map (fun p => (p, "RSI oversold (5% drop)")),
    (if 3 ≤ dp.length ∧ dp.getD 2 0 < (dp.getD 0 0 + dp.getD 1 0) / 2 ∧ dp.getD 2 0 < init
      then some (dp.getD 2 0, "MA crossover") else none),
    ((dp.zip dp.tail).find? (fun pr => decide ((pr.2 - pr.1) / pr.1 < -(3 / 100)))).map
      (fun pr => (pr.2, "volatility spike (3% drop)")),
    (dp.find? fun p => p ≤ init * (98 / 100)).map (fun p => (p, "support break (2% drop)")),
    (if 2 ≤ dp.length ∧ dp.getD 1 0 < dp.getD 0 0 ∧ dp.getD 1 0 < init
      then some (dp.getD 1 0, "momentum reversal") else none) ].findSome? id

/-- Spec-side rendering of `detectDip`: the prioritized waterfall, then the fallback to
the lowest price of the period when it sits at least one percent below the entry. -/
def detectDipSpec (init : ℚ) (dp : List ℚ) : ℚ × String :=
  match dp with
  | [] => (init, "no dip detected (no data)")
  | _ :: _ =>
    match dipStrategySpec init dp with
    | some r => r
    | none =>
      match dp.min? with
      | none => (init, "no dip detected (no data)")
      | some low =>
        if low < init * (99 / 100) then (low, "lowest price (1%+ drop)")
        else (init, "no dip detected")

/-! Theorems. -/

/-- C9: for the simple trailing stop with entry price 100, stop percentage 15 and the
daily series [100, 120, 110, 101, 84], the replay exits with exit price 101 and reason
"Trailing stop hit", reporting max gain 20 percent and max drawdown 0 percent; the
recorded high of 120 puts the stop level at 102, which the day at price 101 breaches. -/
theorem claim_C9_simple_trailing_stop_scenario :
    simulateSimpleTrailingStop 100 [100, 120, 110, 101, 84] (15 / 100)
      = (101, "Trailing stop hit", 20, 0)
    ∧ (120 : ℚ) * (1 - 15 / 100) = 102
    ∧ ((101 : ℚ) ≤ 120 * (1 - 15 / 100)) := by
  refine ⟨?_, by norm_num, by norm_num⟩
  norm_num [simulateSimpleTrailingStop, simpleLoop]

/-- C4: for an Active signal with a recorded InitialTrade, on a tick strictly after the
initial buy date, the allocation amount is the original InitialTrade cost (the weight
formula and the account value are not consulted), and a successful dip buy appends a
lot whose cost equals that first-lot cost. -/
theorem claim_C4_dip_buy_reuses_initial_cost
    (signalList : List Signal) (b b2 : BacktestBrokerage) (d : ℚ)
    (sig sig2 : Signal) (q : TickerQuote) (t : Trade)
    (hact : sig.status = Status.active)
    (hit : sig.initialTrade = some t)
    (hafter : t.buyDateTime < d) :
    CalculateAllocationAmount signalList b d sig = t.cost
    ∧ (ExecuteDipBuy signalList b d sig q = some (Except.ok (sig2, b2)) →
        sig2.dipTrades = sig.dipTrades ++ [some ⟨d, 0, q.price, 0, t.cost, 0, 0, t.cost / q.price⟩]) := by
  have halloc : CalculateAllocationAmount signalList b d sig = t.cost := by
    simp only [CalculateAllocationAmount, hact, hit, if_pos hafter]
  refine ⟨halloc, ?_⟩
  intro h
  simp only [ExecuteDipBuy] at h
  rcases hb : ExecuteBuyOrder b sig.ticker
      (CalculateAllocationAmount signalList b d sig / q.price) q.price with _ | e | b3
  · simp only [hb] at h
    cases h
  · simp only [hb] at h
    exact absurd h (by simp)
  · simp only [hb, Option.some.injEq, Except.ok.injEq, Prod.mk.injEq] at h
    obtain ⟨h1, _⟩ := h
    subst h1
    simp [halloc]

/-- Witness for C4: a dip buy 6 days after an initial lot of cost 100 is allocated
exactly 100 and appends a lot of cost 100. -/
theorem claim_C4_witness :
    CalculateAllocationAmount
        [⟨2, "MSFT", 0, 30, 50, Status.active, some ⟨0, 0, 10, 0, 100, 0, 0, 10⟩, [], 12⟩]
        (⟨1000, []⟩ : BacktestBrokerage) 6
        ⟨2, "MSFT", 0, 30, 50, Status.active, some ⟨0, 0, 10, 0, 100, 0, 0, 10⟩, [], 12⟩
      = (100 : ℚ)
    ∧ (ExecuteDipBuy
          [⟨2, "MSFT", 0, 30, 50, Status.active, some ⟨0, 0, 10, 0, 100, 0, 0, 10⟩, [], 12⟩]
          (⟨1000, []⟩ : BacktestBrokerage) 6
          ⟨2, "MSFT", 0, 30, 50, Status.active, some ⟨0, 0, 10, 0, 100, 0, 0, 10⟩, [], 12⟩
          (⟨8, 9⟩ : TickerQuote)
        = some (Except.ok
            (⟨2, "MSFT", 0, 30, 50, Status.active, some ⟨0, 0, 10, 0, 100, 0, 0, 10⟩,
              [some ⟨6, 0, 8, 0, 100, 0, 0, 25 / 2⟩], 12⟩,
              (⟨900, [("MSFT", ⟨25 / 2, 8⟩)]⟩ : BacktestBrokerage))) →
        (⟨2, "MSFT", 0, 30, 50, Status.active, some ⟨0, 0, 10, 0, 100, 0, 0, 10⟩,
            [some ⟨6, 0, 8, 0, 100, 0, 0, 25 / 2⟩], 12⟩ : Signal).dipTrades
          = ([] : List (Option Trade)) ++ [some ⟨6, 0, 8, 0, 100, 0, 0, 100 / 8⟩]) :=
  claim_C4_dip_buy_reuses_initial_cost
    [⟨2, "MSFT", 0, 30, 50, Status.active, some ⟨0, 0, 10, 0, 100, 0, 0, 10⟩, [], 12⟩]
    ⟨1000, []⟩ ⟨900, [("MSFT", ⟨25 / 2, 8⟩)]⟩ 6
    ⟨2, "MSFT", 0, 30, 50, Status.active, some ⟨0, 0, 10, 0, 100, 0, 0, 10⟩, [], 12⟩
    ⟨2, "MSFT", 0, 30, 50, Status.active, some ⟨0, 0, 10, 0, 100, 0, 0, 10⟩,
      [some ⟨6, 0, 8, 0, 100, 0, 0, 25 / 2⟩], 12⟩
    ⟨8, 9⟩ ⟨0, 0, 10, 0, 100, 0, 0, 10⟩
    rfl rfl (by norm_num)

/-- C5 counterexample: a signal whose status is Sold (not Active) still has its
HighPrice raised by the tick — `Run` lifts the recorded high 50 to the day price 60
while the status stays Sold, refuting the claim that a non-Active signal's HighPrice
is not changed by the tick. -/
theorem claim_C5_counterexample :
    (Run { signals := [⟨1, "AAPL", 0, 10, 50, Status.sold, none, [], 50⟩],
           tickerData := [("AAPL", ⟨60, 55⟩)],
           brokerage := ⟨1000, []⟩,
           currentDate := 20 }).map (fun e => e.signals.map (fun s => (s.highPrice, s.status)))
      = some [((60 : ℚ), Status.sold)] := by
  decide

/-- A successful `ExecuteBuy` changes neither the recorded high nor the ticker. -/
lemma ExecuteBuy_preserve (signalList : List Signal) (b b2 : BacktestBrokerage) (d : ℚ)
    (sig sig2 : Signal) (q : TickerQuote)
    (h : ExecuteBuy signalList b d sig q = some (Except.ok (sig2, b2))) :
    sig2.highPrice = sig.highPrice ∧ sig2.ticker = sig.ticker := by
  simp only [ExecuteBuy] at h
  rcases hb : ExecuteBuyOrder b sig.ticker
      (CalculateAllocationAmount signalList b d sig / q.price) q.price with _ | e | b3
  · simp only [hb] at h
    cases h
  · simp only [hb] at h
    exact absurd h (by simp)
  · simp only [hb, Option.some.injEq, Except.ok.injEq, Prod.mk.injEq] at h
    obtain ⟨h1, _⟩ := h
    subst h1
    exact ⟨rfl, rfl⟩

/-- A successful `ExecuteDipBuy` changes neither the recorded high nor the ticker. -/
lemma ExecuteDipBuy_preserve (signalList : List Signal) (b b2 : BacktestBrokerage) (d : ℚ)
    (sig sig2 : Signal) (q : TickerQuote)
    (h : ExecuteDipBuy signalList b d sig q = some (Except.ok (sig2, b2))) :
    sig2.highPrice = sig.highPrice ∧ sig2.ticker = sig.ticker := by
  simp only [ExecuteDipBuy] at h
  rcases hb : ExecuteBuyOrder b sig.ticker
      (CalculateAllocationAmount signalList b d sig / q.price) q.price with _ | e | b3
  · simp only [hb] at h
    cases h
  · simp only [hb] at h
    exact absurd h (by simp)
  · simp only [hb, Option.some.injEq, Except.ok.injEq, Prod.mk.injEq] at h
    obtain ⟨h1, _⟩ := h
    subst h1
    exact ⟨rfl, rfl⟩

/-- A successful `ExecuteSell` changes neither the recorded high nor the ticker. -/
lemma ExecuteSell_preserve (b b2 : BacktestBrokerage) (d : ℚ) (sig sig2 : Signal)
    (q : TickerQuote)
    (h : ExecuteSell b d sig q = some (Except.ok (sig2, b2))) :
    sig2.highPrice = sig.highPrice ∧ sig2.ticker = sig.ticker := by
  simp only [ExecuteSell] at h
  rcases hit : sig.initialTrade with _ | it <;> rw [hit] at h
  · exact absurd h (by simp)
  · simp only [Option.some.injEq] at h
    split at h
    · exact absurd h (by simp)
    · split at h
      · exact absurd h (by simp)
      · split at h
        · exact absurd h (by simp)
        · split at h
          · exact absurd h (by simp)
          · simp only [Except.ok.injEq, Prod.mk.injEq] at h
            obtain ⟨h1, _⟩ := h
            subst h1
            exact ⟨rfl, rfl⟩

/-- Replacing one entry of the signal list by a signal with the same recorded high and
ticker does not change the high/ticker view at any index. -/
lemma getElem?_set_preserve {l : List Signal} {i : ℕ} {sig sig2 : Signal}
    (hsi : l[i]? = some sig)
    (hh : sig2.highPrice = sig.highPrice) (ht : sig2.ticker = sig.ticker) (j : ℕ) :
    (l.set i sig2)[j]?.map (fun s => (s.highPrice, s.ticker))
      = l[j]?.map (fun s => (s.highPrice, s.ticker)) := by
  rw [List.getElem?_set]
  by_cases hij : i = j
  · subst hij
    have hlen : i < l.length := by
      by_contra hc
      rw [List.getElem?_eq_none (Nat.le_of_not_lt hc)] at hsi
      cases hsi
    rw [if_pos rfl, if_pos hlen, hsi]
    simp [hh, ht]
  · rw [if_neg hij]

/-- One `Engine.Run` loop iteration never changes the recorded high or the ticker of
any signal, whatever transition it performs. -/
lemma runStep_preserve (td : List (String × TickerQuote)) (d : ℚ)
    (st st2 : List Signal × BacktestBrokerage) (i : ℕ)
    (h : runStep td d st i = some st2) (j : ℕ) :
    st2.1[j]?.map (fun s => (s.highPrice, s.ticker))
      = st.1[j]?.map (fun s => (s.highPrice, s.ticker)) := by
  simp only [runStep] at h
  rcases hsi : st.1[i]? with _ | sig
  · simp only [hsi, Option.some.injEq] at h
    subst h
    rfl
  · simp only [hsi] at h
    split at h
    · -- pending branch
      rcases hq : lookupQuote td sig.ticker with _ | q
      · simp only [hq, Option.some.injEq] at h
        subst h
        rfl
      · simp only [hq] at h
        rcases hx : ExecuteBuy st.1 st.2 d sig q with _ | e | ⟨sig2, b2⟩
        · simp only [hx] at h
          cases h
        · simp only [hx, Option.some.injEq] at h
          subst h
          rfl
        · simp only [hx, Option.some.injEq] at h
          subst h
          obtain ⟨hh, ht⟩ := ExecuteBuy_preserve _ _ _ _ _ _ _ hx
          exact getElem?_set_preserve hsi hh ht j
    · split at h
      · split at h
        · -- sell branch
          rcases hq : lookupQuote td sig.ticker with _ | q
          · simp only [hq, Option.some.injEq] at h
            subst h
            rfl
          · simp only [hq] at h
            rcases hx : ExecuteSell st.2 d sig q with _ | e | ⟨sig2, b2⟩
            · simp only [hx] at h
              cases h
            · simp only [hx, Option.some.injEq] at h
              subst h
              rfl
            · simp only [hx, Option.some.injEq] at h
              subst h
              obtain ⟨hh, ht⟩ := ExecuteSell_preserve _ _ _ _ _ _ hx
              exact getElem?_set_preserve hsi hh ht j
        · -- dip branch
          rcases hc : CheckDipBuyConditions td d sig with _ | b
          · simp only [hc] at h
            cases h
          · cases b
            · simp only [hc, Option.some.injEq] at h
              subst h
              rfl
            · simp only [hc] at h
              rcases hq : lookupQuote td sig.ticker with _ | q
              · simp only [hq] at h
                cases h
              · simp only [hq] at h
                rcases hx : ExecuteDipBuy st.1 st.2 d sig q with _ | e | ⟨sig2, b2⟩
                · simp only [hx] at h
                  cases h
                · simp only [hx, Option.some.injEq] at h
                  subst h
                  rfl
                · simp only [hx, Option.some.injEq] at h
                  subst h
                  obtain ⟨hh, ht⟩ := ExecuteDipBuy_preserve _ _ _ _ _ _ _ hx
                  exact getElem?_set_preserve hsi hh ht j
      · simp only [Option.some.injEq] at h
        subst h
        rfl

/-- The whole `Engine.Run` loop, over any iteration order, never changes the recorded
high or the ticker of any signal. -/
lemma runLoop_preserve (td : List (String × TickerQuote)) (d : ℚ) :
    ∀ (idxs : List ℕ) (st st2 : List Signal × BacktestBrokerage),
      runLoop td d idxs st = some st2 → ∀ j : ℕ,
      st2.1[j]?.map (fun s => (s.highPrice, s.ticker))
        = st.1[j]?.map (fun s => (s.highPrice, s.ticker))
  | [], st, st2, h, j => by
    simp only [runLoop, Option.some.injEq] at h
    subst h
    rfl
  | i :: rest, st, st2, h, j => by
    simp only [runLoop] at h
    rcases hstep : runStep td d st i with _ | st1 <;> rw [hstep] at h
    · cases h
    · rw [runLoop_preserve td d rest st1 st2 h j, runStep_preserve td d st st1 i hstep j]

/-- C5 amended: after `Engine.Run`, the HighPrice of EVERY signal with a quote for the
day — whatever its status, Pending and Sold included — equals the maximum of its prior
HighPrice and the day price, and a signal without a quote keeps its HighPrice; the
update is applied once, by the `UpdateSignalsHighPrice` pass that `Run` performs after
the transition loop (no transition touches HighPrice). The original claim's exemption
of non-Active signals is refuted by the counterexample. -/
theorem claim_C5_run_raises_highPrice_regardless_of_status
    (e e2 : Engine) (j : ℕ) (s : Signal)
    (hrun : Run e = some e2)
    (hj : e.signals[j]? = some s) :
    ∃ s2, e2.signals[j]? = some s2
      ∧ s2.highPrice = (match lookupQuote e.tickerData s.ticker with
          | none => s.highPrice
          | some q => max s.highPrice q.price) := by
  simp only [Run] at hrun
  rcases hl : runLoop e.tickerData e.currentDate (List.range e.signals.length)
      (e.signals, e.brokerage) with _ | ⟨sigs, b⟩
  · simp only [hl] at hrun
    cases hrun
  · simp only [hl, Option.some.injEq] at hrun
    subst hrun
    have hpres := runLoop_preserve _ _ _ _ _ hl j
    rw [hj] at hpres
    rcases hmid : sigs[j]? with _ | mid <;> rw [hmid] at hpres
    · cases hpres
    · simp only [Option.map_some', Option.some.injEq, Prod.mk.injEq] at hpres
      obtain ⟨hh, ht⟩ := hpres
      refine ⟨updateHighPrice e.tickerData mid, ?_, ?_⟩
      · simp only [UpdateSignalsHighPrice, List.getElem?_map, hmid, Option.map_some']
      · simp only [updateHighPrice, ht]
        rcases hq : lookupQuote e.tickerData s.ticker with _ | q <;> simp only [hq]
        · exact hh
        · by_cases hlt : mid.highPrice < q.price
          · rw [if_pos hlt, max_eq_right (le_of_lt (hh ▸ hlt))]
          · rw [if_neg hlt, hh, max_eq_left (le_of_not_lt (hh ▸ hlt))]

/-- Witness for C5 amended: the Sold signal of the counterexample engine, with prior
high 50 and day price 60, ends the tick with HighPrice 60. -/
theorem claim_C5_witness :
    ∃ s2, ({ signals := [⟨1, "AAPL", 0, 10, 50, Status.sold, none, [],
                (60 : ℚ)⟩],
             tickerData := [("AAPL", (⟨60, 55⟩ : TickerQuote))],
             brokerage := ⟨1000, []⟩, currentDate := 20 } : Engine).signals[0]?
        = some s2
      ∧ s2.highPrice
        = (match lookupQuote [("AAPL", (⟨60, 55⟩ : TickerQuote))]
              (⟨1, "AAPL", 0, 10, 50, Status.sold, none, [], (50 : ℚ)⟩ : Signal).ticker with
            | none => (⟨1, "AAPL", 0, 10, 50, Status.sold, none, [], (50 : ℚ)⟩ : Signal).highPrice
            | some q => max (⟨1, "AAPL", 0, 10, 50, Status.sold, none, [], (50 : ℚ)⟩ : Signal).highPrice q.price) :=
  claim_C5_run_raises_highPrice_regardless_of_status
    ⟨[⟨1, "AAPL", 0, 10, 50, Status.sold, none, [], 50⟩],
      [("AAPL", ⟨60, 55⟩)], ⟨1000, []⟩, 20⟩
    ⟨[⟨1, "AAPL", 0, 10, 50, Status.sold, none, [], 60⟩],
      [("AAPL", ⟨60, 55⟩)], ⟨1000, []⟩, 20⟩
    0 ⟨1, "AAPL", 0, 10, 50, Status.sold, none, [], 50⟩ (by decide) (by decide)

/-- C6 counterexample: with entry 100, stop percentage 10 and series [80, 200], the
simple trailing stop exits on the first day at price 80 and reports max gain 0, while
the gain over the whole series reaches 100 percent on the day after the exit — so days
after the exit day do not contribute to the reported statistics, refuting the claim. -/
theorem claim_C6_counterexample :
    simulateSimpleTrailingStop 100 [80, 200] (1 / 10) = (80, "Trailing stop hit", 0, -20)
    ∧ gainMax 100 [80, 200] = 100 := by
  constructor
  · norm_num [simulateSimpleTrailingStop, simpleLoop]
  · norm_num [gainMax, gainPct]

/-- C3: for an Active signal with a quote for the day, a positive recorded HighPrice
and a recorded InitialTrade, `CheckDipBuyConditions` returns true exactly when all six
conditions hold: price below the 20-day SMA, pullback from the recorded high of at
least 10 percent, SMA at or above the initial buy price, at least 5 days since the
latest fill, price below the initial buy price, and fewer than 2 recorded DipTrades;
otherwise it returns false (the embedding mirrors the source check order, any failing
check short-circuiting to false). -/
theorem claim_C3_dip_conditions_characterization
    (tickerData : List (String × TickerQuote)) (d : ℚ) (sig : Signal)
    (q : TickerQuote) (it : Trade)
    (hq : lookupQuote tickerData sig.ticker = some q)
    (_hact : sig.status = Status.active)
    (_hhigh : 0 < sig.highPrice)
    (hit : sig.initialTrade = some it) :
    (CheckDipBuyConditions tickerData d sig = some true ↔
      (q.price < q.sma20
        ∧ (sig.highPrice - q.price) / sig.highPrice ≥ 1 / 10
        ∧ it.buyPrice ≤ q.sma20
        ∧ 5 ≤ d - latestBuyDate sig.dipTrades it.buyDateTime
        ∧ q.price < it.buyPrice
        ∧ sig.dipTrades.length < 2))
    ∧ CheckDipBuyConditions tickerData d sig ≠ none := by
  simp only [CheckDipBuyConditions, hq, hit]
  constructor
  · split_ifs with h1 h2 h3 h4 h5 h6
    · exact iff_of_false (by simp) (fun hC => absurd hC.1 (not_lt.mpr h1))
    · refine iff_of_false (by simp) (fun hC => ?_)
      have hd := hC.2.1
      rw [ge_iff_le] at hd
      linarith
    · exact iff_of_false (by simp) (fun hC => absurd hC.2.2.1 (not_le.mpr h3))
    · refine iff_of_false (by simp) (fun hC => ?_)
      have hd := hC.2.2.2.1
      linarith
    · exact iff_of_false (by simp) (fun hC => absurd hC.2.2.2.2.1 (not_lt.mpr h5))
    · refine iff_of_false (by simp) (fun hC => ?_)
      have hd := hC.2.2.2.2.2
      omega
    · refine iff_of_true rfl ⟨not_le.mp h1, ?_, not_lt.mp h3, ?_, not_le.mp h5, by omega⟩
      · have h2s := not_lt.mp h2
        rw [ge_iff_le]
        linarith
      · have h4s := not_lt.mp h4
        linarith
  · split_ifs <;> simp

/-- Witness for C3: a concrete Active signal for which all six conditions hold, so the
predicate returns true. -/
theorem claim_C3_witness :
    (CheckDipBuyConditions [("MSFT", (⟨9, 11⟩ : TickerQuote))] 6
        (⟨2, "MSFT", 0, 30, 50, Status.active, some ⟨0, 0, 10, 0, 100, 0, 0, 10⟩, [], 12⟩ : Signal)
        = some true ↔
      ((9 : ℚ) < 11
        ∧ ((12 : ℚ) - 9) / 12 ≥ 1 / 10
        ∧ (10 : ℚ) ≤ 11
        ∧ (5 : ℚ) ≤ 6 - latestBuyDate ([] : List (Option Trade)) 0
        ∧ (9 : ℚ) < 10
        ∧ ([] : List (Option Trade)).length < 2))
    ∧ CheckDipBuyConditions [("MSFT", (⟨9, 11⟩ : TickerQuote))] 6
        (⟨2, "MSFT", 0, 30, 50, Status.active, some ⟨0, 0, 10, 0, 100, 0, 0, 10⟩, [], 12⟩ : Signal)
        ≠ none :=
  claim_C3_dip_conditions_characterization
    [("MSFT", ⟨9, 11⟩)] 6
    ⟨2, "MSFT", 0, 30, 50, Status.active, some ⟨0, 0, 10, 0, 100, 0, 0, 10⟩, [], 12⟩
    ⟨9, 11⟩ ⟨0, 0, 10, 0, 100, 0, 0, 10⟩
    (by decide) rfl (by norm_num) rfl

/-- C7: when the ledger holds fewer shares of the ticker than the combined recorded
quantity of the InitialTrade plus all DipTrades, `ExecuteSell` returns an error and the
`Run` iteration for that signal leaves the whole state — the signal, its trades and the
ledger — unchanged. -/
theorem claim_C7_position_mismatch_is_atomic
    (tickerData : List (String × TickerQuote)) (sigs : List Signal)
    (b : BacktestBrokerage) (d : ℚ) (i : ℕ) (sig : Signal) (q : TickerQuote) (it : Trade)
    (hi : sigs[i]? = some sig)
    (hact : sig.status = Status.active)
    (hdue : sig.sellDateTime ≤ d)
    (hq : lookupQuote tickerData sig.ticker = some q)
    (hit : sig.initialTrade = some it)
    (hshort : posSharesOrZero b sig.ticker < totalQuantity it sig.dipTrades) :
    (∃ msg, ExecuteSell b d sig q = some (Except.error msg))
    ∧ runStep tickerData d (sigs, b) i = some (sigs, b) := by
  have hsell : ∃ msg, ExecuteSell b d sig q = some (Except.error msg) := by
    simp only [ExecuteSell, hit]
    by_cases h0 : totalQuantity it sig.dipTrades = 0
    · rw [if_pos h0]
      exact ⟨_, rfl⟩
    · rw [if_neg h0]
      rcases hfp : findPos b.positions sig.ticker with _ | pos
      · simp only [GetPosition, hfp]
        exact ⟨_, rfl⟩
      · simp only [GetPosition, hfp]
        have hlt : pos.shares < totalQuantity it sig.dipTrades := by
          have hs := hshort
          simp only [posSharesOrZero, hfp] at hs
          exact hs
        rw [if_pos hlt]
        exact ⟨_, rfl⟩
  refine ⟨hsell, ?_⟩
  obtain ⟨msg, hmsg⟩ := hsell
  have hnp : ¬(sig.status = Status.pending ∧ sig.buyDateTime ≤ d) := by
    rintro ⟨hp, _⟩
    rw [hact] at hp
    cases hp
  simp only [runStep, hi, if_neg hnp, if_pos hact, if_pos hdue, hq, hmsg]

/-- Witness for C7: an Active signal recording 10 shares while the ledger holds none —
the sell errors out and the state is untouched. -/
theorem claim_C7_witness :
    (∃ msg, ExecuteSell (⟨1000, []⟩ : BacktestBrokerage) 10
        (⟨2, "MSFT", 0, 10, 50, Status.active, some ⟨0, 0, 10, 0, 100, 0, 0, 10⟩, [], 12⟩ : Signal)
        (⟨12, 11⟩ : TickerQuote) = some (Except.error msg))
    ∧ runStep [("MSFT", (⟨12, 11⟩ : TickerQuote))] 10
        ([⟨2, "MSFT", 0, 10, 50, Status.active, some ⟨0, 0, 10, 0, 100, 0, 0, 10⟩, [], 12⟩],
          (⟨1000, []⟩ : BacktestBrokerage)) 0
      = some ([⟨2, "MSFT", 0, 10, 50, Status.active, some ⟨0, 0, 10, 0, 100, 0, 0, 10⟩, [], 12⟩],
          (⟨1000, []⟩ : BacktestBrokerage)) :=
  claim_C7_position_mismatch_is_atomic
    [("MSFT", ⟨12, 11⟩)]
    [⟨2, "MSFT", 0, 10, 50, Status.active, some ⟨0, 0, 10, 0, 100, 0, 0, 10⟩, [], 12⟩]
    ⟨1000, []⟩ 10 0
    ⟨2, "MSFT", 0, 10, 50, Status.active, some ⟨0, 0, 10, 0, 100, 0, 0, 10⟩, [], 12⟩
    ⟨12, 11⟩ ⟨0, 0, 10, 0, 100, 0, 0, 10⟩
    rfl rfl (by norm_num) rfl rfl (by norm_num [posSharesOrZero, findPos, totalQuantity, dipQty])

/-- Closing every non-nil dip trade at one price yields a profit/loss sum equal to the
combined dip quantity times the price minus the combined dip cost. -/
lemma closed_dip_sum (d p : ℚ) :
    ∀ l : List (Option Trade),
      ((l.map (Option.map (closeTrade d p))).map dipPL).sum
        = (l.map dipQty).sum * p - (l.map dipCost).sum
  | [] => by simp
  | o :: rest => by
    have ih := closed_dip_sum d p rest
    cases o <;>
      simp only [List.map_cons, Option.map_none', Option.map_some', List.sum_cons, ih,
        dipPL, dipQty, dipCost, closeTrade] <;>
      ring

/-- C1: for an Active signal with an InitialTrade whose recorded quantities the ledger
can cover, `ExecuteSell` executes exactly one sell order for the combined quantity at
the day price, closes the InitialTrade and every non-nil DipTrade with proceeds equal
to that trade's own quantity times the sell price and profit/loss equal to its own
proceeds minus its own cost, marks the signal Sold, and the resulting realized
profit/loss is the per-trade sum (combined quantity times price minus combined cost),
not a blended-lot computation. -/
theorem claim_C1_execute_sell_allocates_proceeds_per_trade
    (b : BacktestBrokerage) (d : ℚ) (sig : Signal) (q : TickerQuote)
    (it : Trade) (pos : Position)
    (_hact : sig.status = Status.active)
    (hit : sig.initialTrade = some it)
    (hpos : findPos b.positions sig.ticker = some pos)
    (htot : totalQuantity it sig.dipTrades ≠ 0)
    (henough : totalQuantity it sig.dipTrades ≤ pos.shares) :
    ∃ sig2 b2,
      ExecuteSell b d sig q = some (Except.ok (sig2, b2))
      ∧ ExecuteSellOrder b sig.ticker (totalQuantity it sig.dipTrades) q.price = Except.ok b2
      ∧ sig2.status = Status.sold
      ∧ sig2.initialTrade = some (closeTrade d q.price it)
      ∧ (closeTrade d q.price it).proceeds = it.quantity * q.price
      ∧ (closeTrade d q.price it).profitLoss = it.quantity * q.price - it.cost
      ∧ sig2.dipTrades = sig.dipTrades.map (Option.map (closeTrade d q.price))
      ∧ (∀ (t0 : Trade) (j : ℕ), sig.dipTrades[j]? = some (some t0) →
          sig2.dipTrades[j]? = some (some (closeTrade d q.price t0))
          ∧ (closeTrade d q.price t0).proceeds = t0.quantity * q.price
          ∧ (closeTrade d q.price t0).profitLoss = t0.quantity * q.price - t0.cost)
      ∧ signalRealizedPL (closeTrade d q.price it) sig2.dipTrades
          = totalQuantity it sig.dipTrades * q.price - totalCost it sig.dipTrades := by
  have hnl : ¬(pos.shares < totalQuantity it sig.dipTrades) := not_lt.mpr henough
  have hso : ExecuteSellOrder b sig.ticker (totalQuantity it sig.dipTrades) q.price
      = Except.ok ⟨b.balance + totalQuantity it sig.dipTrades * q.price,
          sellPos b.positions sig.ticker (totalQuantity it sig.dipTrades)⟩ := by
    simp only [ExecuteSellOrder, hpos, if_neg hnl]
  refine ⟨{ sig with
      initialTrade := some (closeTrade d q.price it)
      dipTrades := sig.dipTrades.map (Option.map (closeTrade d q.price))
      status := Status.sold },
    ⟨b.balance + totalQuantity it sig.dipTrades * q.price,
      sellPos b.positions sig.ticker (totalQuantity it sig.dipTrades)⟩,
    ?_, hso, rfl, rfl, rfl, by simp [closeTrade], rfl, ?_, ?_⟩
  · simp only [ExecuteSell, hit, if_neg htot, GetPosition, hpos, if_neg hnl, hso, closeTrade]
  · intro t0 j hj
    refine ⟨?_, rfl, by simp [closeTrade]⟩
    simp only [List.getElem?_map, hj, Option.map_some']
  · simp only [signalRealizedPL, closed_dip_sum, closeTrade, totalQuantity, totalCost]
    ring

/-- Witness for C1: a concrete Active signal with one dip trade and a covering ledger
position is sold with per-trade proceeds. -/
theorem claim_C1_witness :
    ∃ sig2 b2,
      ExecuteSell (⟨0, [("MSFT", ⟨45/2, 80/9⟩)]⟩ : BacktestBrokerage) 12
          (⟨2, "MSFT", 0, 10, 50, Status.active, some ⟨0, 0, 10, 0, 100, 0, 0, 10⟩,
            [some ⟨6, 0, 8, 0, 100, 0, 0, 25/2⟩], 12⟩ : Signal)
          (⟨12, 11⟩ : TickerQuote)
        = some (Except.ok (sig2, b2))
      ∧ ExecuteSellOrder (⟨0, [("MSFT", ⟨45/2, 80/9⟩)]⟩ : BacktestBrokerage) "MSFT"
          (totalQuantity ⟨0, 0, 10, 0, 100, 0, 0, 10⟩ [some ⟨6, 0, 8, 0, 100, 0, 0, 25/2⟩]) 12
        = Except.ok b2
      ∧ sig2.status = Status.sold
      ∧ sig2.initialTrade = some (closeTrade 12 12 ⟨0, 0, 10, 0, 100, 0, 0, 10⟩)
      ∧ (closeTrade 12 12 ⟨0, 0, 10, 0, 100, 0, 0, 10⟩).proceeds = 10 * 12
      ∧ (closeTrade 12 12 ⟨0, 0, 10, 0, 100, 0, 0, 10⟩).profitLoss = 10 * 12 - 100
      ∧ sig2.dipTrades
          = [some ⟨6, 0, 8, 0, 100, 0, 0, 25/2⟩].map (Option.map (closeTrade 12 12))
      ∧ (∀ (t0 : Trade) (j : ℕ),
          ([some ⟨6, 0, 8, 0, 100, 0, 0, 25/2⟩] : List (Option Trade))[j]? = some (some t0) →
          sig2.dipTrades[j]? = some (some (closeTrade 12 12 t0))
          ∧ (closeTrade 12 12 t0).proceeds = t0.quantity * 12
          ∧ (closeTrade 12 12 t0).profitLoss = t0.quantity * 12 - t0.cost)
      ∧ signalRealizedPL (closeTrade 12 12 ⟨0, 0, 10, 0, 100, 0, 0, 10⟩) sig2.dipTrades
          = totalQuantity ⟨0, 0, 10, 0, 100, 0, 0, 10⟩ [some ⟨6, 0, 8, 0, 100, 0, 0, 25/2⟩] * 12
            - totalCost ⟨0, 0, 10, 0, 100, 0, 0, 10⟩ [some ⟨6, 0, 8, 0, 100, 0, 0, 25/2⟩] :=
  claim_C1_execute_sell_allocates_proceeds_per_trade
    ⟨0, [("MSFT", ⟨45/2, 80/9⟩)]⟩ 12
    ⟨2, "MSFT", 0, 10, 50, Status.active, some ⟨0, 0, 10, 0, 100, 0, 0, 10⟩,
      [some ⟨6, 0, 8, 0, 100, 0, 0, 25/2⟩], 12⟩
    ⟨12, 11⟩ ⟨0, 0, 10, 0, 100, 0, 0, 10⟩ ⟨45/2, 80/9⟩
    rfl rfl rfl
    (by norm_num [totalQuantity, dipQty])
    (by norm_num [totalQuantity, dipQty])

/-- C2: for a live signal outside the dip-buy override scenario, the allocation is
`weight / 100 × accountValue` when the live weights sum to at most 100 and
`weight / S × accountValue` when the sum `S` exceeds 100; and with non-negative live
weights and a non-negative account value, the weight-branch allocation amounts of all
live signals sum to at most the account value in both cases. -/
theorem claim_C2_weight_allocation_and_cap
    (signalList : List Signal) (b : BacktestBrokerage) (d : ℚ) (sig : Signal)
    (_hlive : isLive sig = true)
    (hnodip : sig.status = Status.pending ∨ sig.initialTrade = none ∨
      ∀ t : Trade, sig.initialTrade = some t → d ≤ t.buyDateTime)
    (_hw : ∀ s ∈ signalList.filter isLive, 0 ≤ s.allocationPercentage)
    (hA : 0 ≤ GetAccountValue b) :
    (totalPercentage signalList ≤ 100 →
      CalculateAllocationAmount signalList b d sig
        = sig.allocationPercentage / 100 * GetAccountValue b)
    ∧ (100 < totalPercentage signalList →
      CalculateAllocationAmount signalList b d sig
        = sig.allocationPercentage / totalPercentage signalList * GetAccountValue b)
    ∧ ((signalList.filter isLive).map
        (fun s => allocByWeight signalList (GetAccountValue b) s)).sum
        ≤ GetAccountValue b := by
  have hcalc : CalculateAllocationAmount signalList b d sig
      = allocByWeight signalList (GetAccountValue b) sig := by
    rcases hI : sig.initialTrade with _ | t
    · cases hst : sig.status <;> simp only [CalculateAllocationAmount, hI, hst]
    · cases hst : sig.status <;> simp only [CalculateAllocationAmount, hI, hst]
      rcases hnodip with hp | hn | hle
      · rw [hst] at hp
        cases hp
      · rw [hI] at hn
        cases hn
      · rw [if_neg (not_lt.mpr (hle t hI))]
  refine ⟨?_, ?_, ?_⟩
  · intro hle100
    rw [hcalc]
    simp only [allocByWeight, if_pos hle100]
  · intro hgt
    rw [hcalc]
    simp only [allocByWeight, if_neg (not_le.mpr hgt)]
    ring
  · by_cases hc : totalPercentage signalList ≤ 100
    · have hfun : (fun s => allocByWeight signalList (GetAccountValue b) s)
          = fun s : Signal => s.allocationPercentage * (GetAccountValue b / 100) := by
        funext s
        simp only [allocByWeight, if_pos hc]
        ring
      rw [hfun, List.sum_map_mul_right]
      have hA100 : 0 ≤ GetAccountValue b / 100 := div_nonneg hA (by norm_num)
      calc ((signalList.filter isLive).map Signal.allocationPercentage).sum
            * (GetAccountValue b / 100)
          ≤ 100 * (GetAccountValue b / 100) := mul_le_mul_of_nonneg_right hc hA100
        _ = GetAccountValue b := by ring
    · push_neg at hc
      have htp0 : totalPercentage signalList ≠ 0 :=
        ne_of_gt (lt_trans (by norm_num) hc)
      have hfun : (fun s => allocByWeight signalList (GetAccountValue b) s)
          = fun s : Signal => s.allocationPercentage
              * (GetAccountValue b / totalPercentage signalList) := by
        funext s
        simp only [allocByWeight, if_neg (not_le.mpr hc)]
        ring
      rw [hfun, List.sum_map_mul_right]
      have : ((signalList.filter isLive).map Signal.allocationPercentage).sum
          = totalPercentage signalList := rfl
      rw [this, mul_div_cancel₀ _ htp0]

/-- Witness for C2: one live (Pending) signal with weight 50 and an all-cash ledger of
1000 — the allocation is 500 and the live sum stays at or below the account value. -/
theorem claim_C2_witness :
    (totalPercentage [⟨1, "AAPL", 0, 10, 50, Status.pending, none, [], 0⟩] ≤ 100 →
      CalculateAllocationAmount [⟨1, "AAPL", 0, 10, 50, Status.pending, none, [], 0⟩]
          (⟨1000, []⟩ : BacktestBrokerage) 0
          ⟨1, "AAPL", 0, 10, 50, Status.pending, none, [], 0⟩
        = 50 / 100 * GetAccountValue (⟨1000, []⟩ : BacktestBrokerage))
    ∧ (100 < totalPercentage [⟨1, "AAPL", 0, 10, 50, Status.pending, none, [], 0⟩] →
      CalculateAllocationAmount [⟨1, "AAPL", 0, 10, 50, Status.pending, none, [], 0⟩]
          (⟨1000, []⟩ : BacktestBrokerage) 0
          ⟨1, "AAPL", 0, 10, 50, Status.pending, none, [], 0⟩
        = 50 / totalPercentage [⟨1, "AAPL", 0, 10, 50, Status.pending, none, [], 0⟩]
            * GetAccountValue (⟨1000, []⟩ : BacktestBrokerage))
    ∧ (([⟨1, "AAPL", 0, 10, 50, Status.pending, none, [], 0⟩].filter isLive).map
        (fun s => allocByWeight [(⟨1, "AAPL", 0, 10, 50, Status.pending, none, [], 0⟩ : Signal)]
          (GetAccountValue (⟨1000, []⟩ : BacktestBrokerage)) s)).sum
        ≤ GetAccountValue (⟨1000, []⟩ : BacktestBrokerage) :=
  claim_C2_weight_allocation_and_cap
    [⟨1, "AAPL", 0, 10, 50, Status.pending, none, [], 0⟩]
    ⟨1000, []⟩ 0
    ⟨1, "AAPL", 0, 10, 50, Status.pending, none, [], 0⟩
    rfl (Or.inl rfl)
    (by intro s hs; fin_cases hs; norm_num)
    (by norm_num [GetAccountValue])

/-- Folding a lot of `q` shares at price `p` into the position map succeeds whenever
the lot quantity is positive (so the volume-weighted average divisor cannot vanish),
raises the summed mark-to-model value by exactly `q * p`, and raises the value of the
bought symbol by the same amount. -/
lemma updatePos_spec (symbol : String) (q p : ℚ) (hq : 0 < q) :
    ∀ ps : List (String × Position), (∀ e ∈ ps, 0 ≤ e.2.shares) →
      ∃ ps2, updatePos ps symbol q p = some ps2
        ∧ (ps2.map entryValue).sum = (ps.map entryValue).sum + q * p
        ∧ (match findPos ps2 symbol with
            | none => (0 : ℚ)
            | some po => po.shares * po.avgBuyPrice)
          = (match findPos ps symbol with
              | none => (0 : ℚ)
              | some po => po.shares * po.avgBuyPrice) + q * p
  | [], _ => by
    refine ⟨[(symbol, ⟨q, p⟩)], rfl, ?_, ?_⟩
    · simp [entryValue]
    · simp [findPos]
  | (s, pos) :: rest, hsh => by
    by_cases hs : s = symbol
    · have hps : 0 ≤ pos.shares := hsh (s, pos) (List.mem_cons_self _ _)
      have h0 : pos.shares + q ≠ 0 := ne_of_gt (by linarith)
      refine ⟨(s, ⟨pos.shares + q,
          (pos.shares * pos.avgBuyPrice + q * p) / (pos.shares + q)⟩) :: rest, ?_, ?_, ?_⟩
      · simp only [updatePos, if_pos hs, if_neg h0]
      · simp only [List.map_cons, List.sum_cons, entryValue]
        rw [mul_comm (pos.shares + q), div_mul_cancel₀ _ h0]
        ring
      · simp only [findPos, if_pos hs]
        rw [mul_comm (pos.shares + q), div_mul_cancel₀ _ h0]
    · obtain ⟨ps2, hup, hsum, hpv⟩ := updatePos_spec symbol q p hq rest
        (fun e he => hsh e (List.mem_cons_of_mem _ he))
      refine ⟨(s, pos) :: ps2, ?_, ?_, ?_⟩
      · simp only [updatePos, if_neg hs, hup, Option.map_some']
      · simp only [List.map_cons, List.sum_cons, hsum]
        ring
      · simp only [findPos, if_neg hs]
        exact hpv

/-- C10: a buy of a positive quantity whose total cost fits in the cash balance
succeeds, lowers the cash balance by exactly quantity times price, raises the
mark-to-model value of the bought ticker by the same amount, and leaves
`GetAccountValue` unchanged. (A positive quantity keeps the average-price divisor away
from the decimal division-by-zero panic that `updatePos` models as `none`.) -/
theorem claim_C10_buy_preserves_account_value
    (b : BacktestBrokerage) (symbol : String) (quantity price : ℚ)
    (hq : 0 < quantity)
    (hsh : ∀ e ∈ b.positions, 0 ≤ e.2.shares)
    (hcash : quantity * price ≤ b.balance) :
    ∃ b2, ExecuteBuyOrder b symbol quantity price = some (Except.ok b2)
      ∧ b2.balance = b.balance - quantity * price
      ∧ positionValue b2 symbol = positionValue b symbol + quantity * price
      ∧ GetAccountValue b2 = GetAccountValue b := by
  obtain ⟨ps2, hup, hsum, hpv⟩ := updatePos_spec symbol quantity price hq b.positions hsh
  refine ⟨⟨b.balance - quantity * price, ps2⟩, ?_, rfl, ?_, ?_⟩
  · simp only [ExecuteBuyOrder, if_neg (not_lt.mpr hcash), hup, Option.map_some']
  · simpa only [positionValue] using hpv
  · simp only [GetAccountValue, hsum]
    ring

/-- Witness for C10: buying 3 shares at 20 with a ledger of 1000 cash and an existing
2-share position keeps the account value constant. -/
theorem claim_C10_witness :
    ∃ b2, ExecuteBuyOrder (⟨1000, [("AAPL", ⟨2, 10⟩)]⟩ : BacktestBrokerage) "AAPL" 3 20
        = some (Except.ok b2)
      ∧ b2.balance = 1000 - 3 * 20
      ∧ positionValue b2 "AAPL"
          = positionValue (⟨1000, [("AAPL", ⟨2, 10⟩)]⟩ : BacktestBrokerage) "AAPL" + 3 * 20
      ∧ GetAccountValue b2 = GetAccountValue (⟨1000, [("AAPL", ⟨2, 10⟩)]⟩ : BacktestBrokerage) :=
  claim_C10_buy_preserves_account_value
    ⟨1000, [("AAPL", ⟨2, 10⟩)]⟩ "AAPL" 3 20
    (by norm_num)
    (by intro e he; fin_cases he; norm_num)
    (by norm_num)

/-- Writing the running-maximum update of the replay loops with `max`. -/
lemma if_lt_max (a b : ℚ) : (if a < b then b else a) = max a b := by
  rcases le_or_lt b a with h | h
  · rw [if_neg (not_lt.mpr h), max_eq_left h]
  · rw [if_pos h, max_eq_right (le_of_lt h)]

/-- Writing the running-minimum update of the replay loops with `min`. -/
lemma if_lt_min (a b : ℚ) : (if b < a then b else a) = min a b := by
  rcases le_or_lt a b with h | h
  · rw [if_neg (not_lt.mpr h), min_eq_left h]
  · rw [if_pos h, min_eq_right (le_of_lt h)]

/-- The simple-trailing-stop loop exits on the day indexed by `simpleStopExitIdx`
(its price is the returned exit price) and reports running max gain and max drawdown
folded over exactly the days up to and including that exit day. -/
lemma simpleLoop_stats (entry pct : ℚ) :
    ∀ (l : List ℚ) (stop high mg md : ℚ), l ≠ [] →
      simpleStopExitIdx pct l stop high < l.length
      ∧ (simpleLoop entry pct l stop high mg md).1
          = l.getD (simpleStopExitIdx pct l stop high) 0
      ∧ (simpleLoop entry pct l stop high mg md).2.2.1
          = (l.take (simpleStopExitIdx pct l stop high + 1)).foldl
              (fun m p => if m < (p - entry) / entry * 100 then (p - entry) / entry * 100 else m) mg
      ∧ (simpleLoop entry pct l stop high mg md).2.2.2
          = (l.take (simpleStopExitIdx pct l stop high + 1)).foldl
              (fun m p => if (p - entry) / entry * 100 < m then (p - entry) / entry * 100 else m) md
  | [], _, _, _, _, h => absurd rfl h
  | p :: rest, stop, high, mg, md, _ => by
    by_cases hstop : p ≤ stop
    · exact ⟨by simp [simpleStopExitIdx, hstop],
        by simp [simpleLoop, simpleStopExitIdx, hstop],
        by simp [simpleLoop, simpleStopExitIdx, hstop],
        by simp [simpleLoop, simpleStopExitIdx, hstop]⟩
    · cases rest with
      | nil =>
        exact ⟨by simp [simpleStopExitIdx, hstop],
          by simp [simpleLoop, simpleStopExitIdx, hstop],
          by simp [simpleLoop, simpleStopExitIdx, hstop],
          by simp [simpleLoop, simpleStopExitIdx, hstop]⟩
      | cons r rs =>
        obtain ⟨hlen, hfp, hg, hd⟩ := simpleLoop_stats entry pct (r :: rs)
          (if high < p then p * (1 - pct) else stop)
          (if high < p then p else high)
          (if mg < (p - entry) / entry * 100 then (p - entry) / entry * 100 else mg)
          (if (p - entry) / entry * 100 < md then (p - entry) / entry * 100 else md)
          (by simp)
        have hidx : simpleStopExitIdx pct (p :: r :: rs) stop high
            = simpleStopExitIdx pct (r :: rs)
                (if high < p then p * (1 - pct) else stop)
                (if high < p then p else high) + 1 := by
          simp only [simpleStopExitIdx, if_neg hstop]
        refine ⟨?_, ?_, ?_, ?_⟩
        · rw [hidx]
          simp only [List.length_cons] at hlen ⊢
          omega
        · rw [hidx, List.getD_cons_succ]
          simp only [simpleLoop, if_neg hstop]
          simp only [simpleLoop] at hfp
          rw [hfp]
        · rw [hidx]
          simp only [simpleLoop, if_neg hstop]
          rw [List.take_succ_cons, List.foldl_cons]
          simp only [simpleLoop] at hg
          rw [hg]
        · rw [hidx]
          simp only [simpleLoop, if_neg hstop]
          rw [List.take_succ_cons, List.foldl_cons]
          simp only [simpleLoop] at hd
          rw [hd]

/-- The take-profit + trailing-stop loop exits on the day indexed by `tpStopExitIdx`
(its price is the returned exit price) and reports running max gain and max drawdown
folded over exactly the days up to and including that exit day. -/
lemma tpLoop_stats (entry tpt pct : ℚ) :
    ∀ (l : List ℚ) (stop high : ℚ) (hit : Bool) (es : String) (mg md : ℚ), l ≠ [] →
      tpStopExitIdx pct l stop high < l.length
      ∧ (tpLoop entry tpt pct l stop high hit es mg md).1
          = l.getD (tpStopExitIdx pct l stop high) 0
      ∧ (tpLoop entry tpt pct l stop high hit es mg md).2.2.1
          = (l.take (tpStopExitIdx pct l stop high + 1)).foldl
              (fun m p => if m < (p - entry) / entry * 100 then (p - entry) / entry * 100 else m) mg
      ∧ (tpLoop entry tpt pct l stop high hit es mg md).2.2.2
          = (l.take (tpStopExitIdx pct l stop high + 1)).foldl
              (fun m p => if (p - entry) / entry * 100 < m then (p - entry) / entry * 100 else m) md
  | [], _, _, _, _, _, _, h => absurd rfl h
  | p :: rest, stop, high, hit, es, mg, md, _ => by
    by_cases hstop : p ≤ (if high < p then p * (1 - pct) else stop)
    · exact ⟨by simp [tpStopExitIdx, hstop],
        by simp [tpLoop, tpStopExitIdx, hstop],
        by simp [tpLoop, tpStopExitIdx, hstop],
        by simp [tpLoop, tpStopExitIdx, hstop]⟩
    · cases rest with
      | nil =>
        exact ⟨by simp [tpStopExitIdx, hstop],
          by simp [tpLoop, tpStopExitIdx, hstop],
          by simp [tpLoop, tpStopExitIdx, hstop],
          by simp [tpLoop, tpStopExitIdx, hstop]⟩
      | cons r rs =>
        obtain ⟨hlen, hfp, hg, hd⟩ := tpLoop_stats entry tpt pct (r :: rs)
          (if high < p then p * (1 - pct) else stop)
          (if high < p then p else high)
          (if tpt ≤ p then true else hit)
          (if tpt ≤ p then "Take profit triggered, trailing stop active" else es)
          (if mg < (p - entry) / entry * 100 then (p - entry) / entry * 100 else mg)
          (if (p - entry) / entry * 100 < md then (p - entry) / entry * 100 else md)
          (by simp)
        have hidx : tpStopExitIdx pct (p :: r :: rs) stop high
            = tpStopExitIdx pct (r :: rs)
                (if high < p then p * (1 - pct) else stop)
                (if high < p then p else high) + 1 := by
          simp only [tpStopExitIdx, if_neg hstop]
        refine ⟨?_, ?_, ?_, ?_⟩
        · rw [hidx]
          simp only [List.length_cons] at hlen ⊢
          omega
        · rw [hidx, List.getD_cons_succ]
          simp only [tpLoop, if_neg hstop]
          simp only [tpLoop] at hfp
          rw [hfp]
        · rw [hidx]
          simp only [tpLoop, if_neg hstop]
          rw [List.take_succ_cons, List.foldl_cons]
          simp only [tpLoop] at hg
          rw [hg]
        · rw [hidx]
          simp only [tpLoop, if_neg hstop]
          rw [List.take_succ_cons, List.foldl_cons]
          simp only [tpLoop] at hd
          rw [hd]

/-- C6 amended: for a non-empty daily series, each exit simulator (simple trailing
stop, and take-profit + trailing stop) reports max gain and max drawdown relative to
the entry price computed over the prefix of the series that ends at the replay exit
day: the day indexed by the exit index (`simpleStopExitIdx` / `tpStopExitIdx`, the
first day whose price breaches the trailing stop, or the last day when none does),
whose price is exactly the returned exit price. Days after the exit day do not
contribute to the reported statistics; the original whole-series claim is refuted by
the counterexample. -/
theorem claim_C6_stats_cover_prefix_up_to_exit
    (entry tp pct : ℚ) (prices : List ℚ) (hne : prices ≠ []) :
    (simpleStopExitIdx pct prices (entry * (1 - pct)) entry < prices.length
      ∧ (simulateSimpleTrailingStop entry prices pct).1
          = prices.getD (simpleStopExitIdx pct prices (entry * (1 - pct)) entry) 0
      ∧ (simulateSimpleTrailingStop entry prices pct).2.2.1
          = gainMax entry
              (prices.take (simpleStopExitIdx pct prices (entry * (1 - pct)) entry + 1))
      ∧ (simulateSimpleTrailingStop entry prices pct).2.2.2
          = ddMin entry
              (prices.take (simpleStopExitIdx pct prices (entry * (1 - pct)) entry + 1)))
    ∧ (tpStopExitIdx pct prices (entry * (1 - pct)) entry < prices.length
      ∧ (simulateTrailingStop entry prices tp pct).1
          = prices.getD (tpStopExitIdx pct prices (entry * (1 - pct)) entry) 0
      ∧ (simulateTrailingStop entry prices tp pct).2.2.1
          = gainMax entry
              (prices.take (tpStopExitIdx pct prices (entry * (1 - pct)) entry + 1))
      ∧ (simulateTrailingStop entry prices tp pct).2.2.2
          = ddMin entry
              (prices.take (tpStopExitIdx pct prices (entry * (1 - pct)) entry + 1))) := by
  have hmax : (fun (m p : ℚ) =>
      if m < (p - entry) / entry * 100 then (p - entry) / entry * 100 else m)
      = fun m p => max m (gainPct entry p) := by
    funext m p
    rw [gainPct, if_lt_max]
  have hmin : (fun (m p : ℚ) =>
      if (p - entry) / entry * 100 < m then (p - entry) / entry * 100 else m)
      = fun m p => min m (gainPct entry p) := by
    funext m p
    rw [gainPct, if_lt_min]
  rcases prices with _ | ⟨p, rest⟩
  · exact absurd rfl hne
  · constructor
    · obtain ⟨hlen, hfp, hg, hd⟩ := simpleLoop_stats entry pct (p :: rest)
        (entry * (1 - pct)) entry 0 0 (by simp)
      refine ⟨hlen, ?_, ?_, ?_⟩
      · rw [show simulateSimpleTrailingStop entry (p :: rest) pct
            = simpleLoop entry pct (p :: rest) (entry * (1 - pct)) entry 0 0 from rfl]
        exact hfp
      · rw [show simulateSimpleTrailingStop entry (p :: rest) pct
            = simpleLoop entry pct (p :: rest) (entry * (1 - pct)) entry 0 0 from rfl,
          hg, hmax]
        rfl
      · rw [show simulateSimpleTrailingStop entry (p :: rest) pct
            = simpleLoop entry pct (p :: rest) (entry * (1 - pct)) entry 0 0 from rfl,
          hd, hmin]
        rfl
    · obtain ⟨hlen, hfp, hg, hd⟩ := tpLoop_stats entry (entry * (1 + tp)) pct (p :: rest)
        (entry * (1 - pct)) entry false "" 0 0 (by simp)
      refine ⟨hlen, ?_, ?_, ?_⟩
      · rw [show simulateTrailingStop entry (p :: rest) tp pct
            = tpLoop entry (entry * (1 + tp)) pct (p :: rest) (entry * (1 - pct)) entry false "" 0 0
            from rfl]
        exact hfp
      · rw [show simulateTrailingStop entry (p :: rest) tp pct
            = tpLoop entry (entry * (1 + tp)) pct (p :: rest) (entry * (1 - pct)) entry false "" 0 0
            from rfl,
          hg, hmax]
        rfl
      · rw [show simulateTrailingStop entry (p :: rest) tp pct
            = tpLoop entry (entry * (1 + tp)) pct (p :: rest) (entry * (1 - pct)) entry false "" 0 0
            from rfl,
          hd, hmin]
        rfl

/-- Witness for C6 amended: the scenario series of the spec, instantiated for both
replays. -/
theorem claim_C6_witness :
    (simpleStopExitIdx (15 / 100) ([100, 120, 110, 101, 84] : List ℚ)
        (100 * (1 - 15 / 100)) 100 < ([100, 120, 110, 101, 84] : List ℚ).length
      ∧ (simulateSimpleTrailingStop 100 [100, 120, 110, 101, 84] (15 / 100)).1
          = ([100, 120, 110, 101, 84] : List ℚ).getD
              (simpleStopExitIdx (15 / 100) ([100, 120, 110, 101, 84] : List ℚ)
                (100 * (1 - 15 / 100)) 100) 0
      ∧ (simulateSimpleTrailingStop 100 [100, 120, 110, 101, 84] (15 / 100)).2.2.1
          = gainMax 100 (([100, 120, 110, 101, 84] : List ℚ).take
              (simpleStopExitIdx (15 / 100) ([100, 120, 110, 101, 84] : List ℚ)
                (100 * (1 - 15 / 100)) 100 + 1))
      ∧ (simulateSimpleTrailingStop 100 [100, 120, 110, 101, 84] (15 / 100)).2.2.2
          = ddMin 100 (([100, 120, 110, 101, 84] : List ℚ).take
              (simpleStopExitIdx (15 / 100) ([100, 120, 110, 101, 84] : List ℚ)
                (100 * (1 - 15 / 100)) 100 + 1)))
    ∧ (tpStopExitIdx (15 / 100) ([100, 120, 110, 101, 84] : List ℚ)
        (100 * (1 - 15 / 100)) 100 < ([100, 120, 110, 101, 84] : List ℚ).length
      ∧ (simulateTrailingStop 100 [100, 120, 110, 101, 84] (2 / 10) (15 / 100)).1
          = ([100, 120, 110, 101, 84] : List ℚ).getD
              (tpStopExitIdx (15 / 100) ([100, 120, 110, 101, 84] : List ℚ)
                (100 * (1 - 15 / 100)) 100) 0
      ∧ (simulateTrailingStop 100 [100, 120, 110, 101, 84] (2 / 10) (15 / 100)).2.2.1
          = gainMax 100 (([100, 120, 110, 101, 84] : List ℚ).take
              (tpStopExitIdx (15 / 100) ([100, 120, 110, 101, 84] : List ℚ)
                (100 * (1 - 15 / 100)) 100 + 1))
      ∧ (simulateTrailingStop 100 [100, 120, 110, 101, 84] (2 / 10) (15 / 100)).2.2.2
          = ddMin 100 (([100, 120, 110, 101, 84] : List ℚ).take
              (tpStopExitIdx (15 / 100) ([100, 120, 110, 101, 84] : List ℚ)
                (100 * (1 - 15 / 100)) 100 + 1))) :=
  claim_C6_stats_cover_prefix_up_to_exit 100 (2 / 10) (15 / 100)
    [100, 120, 110, 101, 84] (by simp)

/-- The pattern-matching strategy 2 equals its index-based spec rendering. -/
lemma maCrossover_eq (init : ℚ) (dp : List ℚ) :
    maCrossover init dp
      = if 3 ≤ dp.length ∧ dp.getD 2 0 < (dp.getD 0 0 + dp.getD 1 0) / 2 ∧ dp.getD 2 0 < init
        then some (dp.getD 2 0) else none := by
  match dp with
  | [] => simp [maCrossover]
  | [p0] => simp [maCrossover]
  | [p0, p1] => simp [maCrossover]
  | p0 :: p1 :: p2 :: rest =>
    have h3 : 3 ≤ (p0 :: p1 :: p2 :: rest).length := by
      simp only [List.length_cons]
      omega
    simp [maCrossover, h3]

/-- The recursive strategy 3 scan equals its zip-with-tail spec rendering. -/
lemma findDailyDrop_eq : ∀ dp : List ℚ,
    findDailyDrop dp
      = ((dp.zip dp.tail).find? (fun pr => decide ((pr.2 - pr.1) / pr.1 < -(3 / 100)))).map
          Prod.snd
  | [] => by simp [findDailyDrop]
  | [p] => by simp [findDailyDrop]
  | p0 :: p1 :: rest => by
    simp only [findDailyDrop, List.tail_cons, List.zip_cons_cons, List.find?_cons]
    by_cases h : (p1 - p0) / p0 < -(3 / 100)
    · simp [h]
    · rw [if_neg h, findDailyDrop_eq (p1 :: rest)]
      simp [h]

/-- The pattern-matching strategy 5 equals its index-based spec rendering. -/
lemma momentumReversal_eq (init : ℚ) (dp : List ℚ) :
    momentumReversal init dp
      = if 2 ≤ dp.length ∧ dp.getD 1 0 < dp.getD 0 0 ∧ dp.getD 1 0 < init
        then some (dp.getD 1 0) else none := by
  match dp with
  | [] => simp [momentumReversal]
  | [p0] => simp [momentumReversal]
  | p0 :: p1 :: rest =>
    have h2 : 2 ≤ (p0 :: p1 :: rest).length := by
      simp only [List.length_cons]
      omega
    simp [momentumReversal, h2]

/-- The running-lowest fold of `detectDip` computes the minimum of the series. -/
lemma lowestFold_eq (p0 : ℚ) (rest : List ℚ) :
    rest.foldl (fun m p => if p < m then p else m) p0 = rest.foldl min p0 := by
  have hfun : (fun (m p : ℚ) => if p < m then p else m) = fun m p => min m p := by
    funext m p
    exact if_lt_min m p
  rw [hfun]

/-- C8: `detectDip` resolves the five dip strategies first-match-wins in the exact
priority order (5 percent drop, 2-day moving-average crossover, single-day 3 percent
drop, 2 percent support break, single down-day momentum reversal), falling back to the
lowest price of the period when it is at least 1 percent below entry and otherwise
reporting no dip; and the staggered entry blends the prices as
`initial × staggerPercent + dip × (1 − staggerPercent)`. -/
theorem claim_C8_dip_waterfall_and_blend (init sp : ℚ) (dp : List ℚ) :
    detectDip init dp sp = detectDipSpec init dp
    ∧ weightedBuyPrice init dp sp = init * sp + (detectDip init dp sp).1 * (1 - sp) := by
  refine ⟨?_, rfl⟩
  rcases dp with _ | ⟨p0, rest⟩
  · rfl
  · simp only [detectDip, detectDipSpec, dipStrategySpec, List.findSome?_cons, id_eq,
      maCrossover_eq, findDailyDrop_eq, momentumReversal_eq]
    rcases h1 : (p0 :: rest).find? (fun p => decide (p ≤ init * (95 / 100))) with _ | p <;>
      simp only [h1, Option.map_none', Option.map_some']
    by_cases h2 : 3 ≤ (p0 :: rest).length
        ∧ (p0 :: rest).getD 2 0 < ((p0 :: rest).getD 0 0 + (p0 :: rest).getD 1 0) / 2
        ∧ (p0 :: rest).getD 2 0 < init
    · rw [if_pos h2, if_pos h2]
    · rw [if_neg h2, if_neg h2]
      rcases h3x : ((p0 :: rest).zip (p0 :: rest).tail).find?
          (fun pr => decide ((pr.2 - pr.1) / pr.1 < -(3 / 100))) with _ | pr <;>
        simp only [h3x, Option.map_none', Option.map_some']
      rcases h4 : (p0 :: rest).find? (fun p => decide (p ≤ init * (98 / 100))) with _ | p <;>
        simp only [h4, Option.map_none', Option.map_some']
      by_cases h5 : 2 ≤ (p0 :: rest).length
          ∧ (p0 :: rest).getD 1 0 < (p0 :: rest).getD 0 0
          ∧ (p0 :: rest).getD 1 0 < init
      · rw [if_pos h5, if_pos h5]
      · rw [if_neg h5, if_neg h5]
        rw [show (p0 :: rest).min? = some (rest.foldl min p0) from rfl, lowestFold_eq]
        rfl

end Artemis
